import Mathlib

/-
Verification of the resumable chunked upload stream of ews-mail-ingest.

The core under verification is the class GCSObjectStreamUpload, which exists
twice in the source: once in src/cloud_function/storage/base.py and once in
src/functions/ews-mail-ingest/main.py.  The two copies are transcribed
separately (namespaces Base and MainPy) so their equivalence can be stated.

Python bytes are modelled as List Nat (the numeric value of each byte plays
no role); the mutable object state is a structure passed explicitly.  The
methods write / read / tell / stop / the context-manager exit are transcribed
from the source.  transmit_next_chunk and recover belong to the external
library google.resumable_media (not part of this repository); they are
modelled from the spec where a claim depends on them, and each such
definition says so in its doc comment.
-/

set_option autoImplicit false

namespace EwsIngest

/-- A byte of a Python bytes object. -/
abbrev Byte := Nat

namespace Base

/-- State of GCSObjectStreamUpload (src/cloud_function/storage/base.py):
the fields _content_type, _buffer, _buffer_size, _chunk_size and _read set up
in __init__ (lines 22-27).  The client / bucket / blob / transport handles
carry no byte-level behaviour and are omitted. -/
structure Stream where
  content_type : String
  buffer : List Byte
  buffer_size : Nat
  chunk_size : Nat
  read_count : Nat
deriving DecidableEq, Repr

/-- The state __init__ establishes: empty buffer, zero sizes and read cursor
(base.py lines 24-27). -/
def init (content_type : String) (chunk_size : Nat) : Stream :=
  { content_type := content_type
    buffer := []
    buffer_size := 0
    chunk_size := chunk_size
    read_count := 0 }

/-- read (base.py lines 73-79): to_read = min(chunk_size, buffer_size); the
first to_read buffered bytes are returned, the rest kept; _read grows and
_buffer_size shrinks by to_read. -/
def read (s : Stream) (chunk_size : Nat) : List Byte × Stream :=
  let to_read := min chunk_size s.buffer_size
  (s.buffer.take to_read,
   { s with
      buffer := s.buffer.drop to_read
      read_count := s.read_count + to_read
      buffer_size := s.buffer_size - to_read })

/-- tell (base.py lines 81-82): returns the _read cursor. -/
def tell (s : Stream) : Nat := s.read_count

/-- Modelled from the spec: transmit_next_chunk is library code
(google.resumable_media, not in src/).  Per spec section 4.3 it pulls exactly
one window, bounded by the chunk size, through the stream's read, and sends
it to the backend; the returned list is that window. -/
def transmit_next_chunk (s : Stream) : List Byte × Stream :=
  read s s.chunk_size

/-- The while loop of write (base.py lines 66-70) on the error-free path,
made total with a fuel argument: while _buffer_size >= _chunk_size, one
transmit_next_chunk fires and its window is recorded.  write always supplies
fuel = _buffer_size, which lemma writeLoopFuel below shows is enough to reach
the loop's exit condition whenever 0 < _chunk_size; for _chunk_size = 0 the
Python loop would never terminate, and no claim concerns that case. -/
def writeLoopFuel : Nat → Stream → Stream × List (List Byte)
  | 0, s => (s, [])
  | fuel + 1, s =>
    if s.chunk_size ≤ s.buffer_size then
      let r := transmit_next_chunk s
      let rest := writeLoopFuel fuel r.2
      (rest.1, r.1 :: rest.2)
    else (s, [])

/-- The while loop of write, entered with fuel = current _buffer_size. -/
def writeLoop (s : Stream) : Stream × List (List Byte) :=
  writeLoopFuel s.buffer_size s

/-- write (base.py lines 61-71): appends data to the buffer, grows
_buffer_size by len(data), runs the transmit loop, and returns len(data)
together with the final state and the transmitted windows. -/
def write (s : Stream) (data : List Byte) : Nat × Stream × List (List Byte) :=
  let data_len := data.length
  let s1 := { s with
                buffer_size := s.buffer_size + data_len
                buffer := s.buffer ++ data }
  let r := writeLoop s1
  (data_len, r.1, r.2)

/-- stop (base.py lines 58-59): one last transmit_next_chunk. -/
def stop (s : Stream) : List Byte × Stream :=
  transmit_next_chunk s

/-- One transmission as seen by the backend: the byte window sent and whether
it was marked final. -/
structure Transmission where
  bytes : List Byte
  final : Bool
deriving DecidableEq, Repr

/-- Modelled from the spec: start calls initiate with stream_final=False
(base.py line 54, main.py line 256), and per spec section 9 the source never
marks any transmission final - the flag is held false for the whole session.
Every transmitted window therefore carries final = false. -/
def streamFinalFlag : Bool := false

/-- The context-manager exit (base.py lines 38-40): stop runs only when
exc_type is None; on an abnormal exit (some exception) nothing is
transmitted.  The windows sent on this path are returned as transmissions
tagged with the session's final flag. -/
def exitScope (exc_type : Option Unit) (s : Stream) : Stream × List Transmission :=
  match exc_type with
  | none =>
    let r := stop s
    (r.2, [{ bytes := r.1, final := streamFinalFlag }])
  | some _ => (s, [])

/-- A whole session on the error-free path: the given writes in order, then
the final flushing transmission of stop; result is every byte window handed
to the backend, in order. -/
def runWrites (s : Stream) : List (List Byte) → Stream × List (List Byte)
  | [] => (s, [])
  | d :: ds =>
    let r := write s d
    let rest := runWrites r.2.1 ds
    (rest.1, r.2.2 ++ rest.2)

/-- All byte windows a session hands to the backend: those fired inside the
writes, then the final flushing transmission of stop. -/
def session (ct : String) (cs : Nat) (ds : List (List Byte)) : List (List Byte) :=
  let r := runWrites (init ct cs) ds
  let f := stop r.1
  r.2 ++ [f.1]

/-- The session's transmissions with their final flags: every window carries
the session's (never-raised) stream_final flag. -/
def sessionTransmissions (ct : String) (cs : Nat) (ds : List (List Byte)) :
    List Transmission :=
  (session ct cs ds).map (fun w => { bytes := w, final := streamFinalFlag })

/-- Modelled from the spec: the write loop with transmission failures.  fail
says whether the k-th transmit_next_chunk attempt of this call raises
InvalidResponse; on failure the except branch (base.py line 70) runs
recover, which per spec section 4.3 resynchronizes the committed offset so
that the next attempt resumes without resending or skipping bytes - the
stream state is unchanged and the loop condition is re-tested.  The fuel
counts loop iterations; none means the fuel was exhausted with the loop
condition still true, i.e. the Python loop is still running. -/
def writeLoopRec (fail : Nat → Bool) : Nat → Nat → Stream → Option (Stream × List (List Byte))
  | _, 0, s => if s.chunk_size ≤ s.buffer_size then none else some (s, [])
  | k, fuel + 1, s =>
    if s.chunk_size ≤ s.buffer_size then
      if fail k then
        writeLoopRec fail (k + 1) fuel s
      else
        let r := transmit_next_chunk s
        (writeLoopRec fail (k + 1) fuel r.2).map (fun p => (p.1, r.1 :: p.2))
    else some (s, [])

/-- A backend that answers every transmission attempt with InvalidResponse. -/
def alwaysFail : Nat → Bool := fun _ => true

/-- Caller-visible operations on the stream: a write call, or a read call
(the transport's pull). -/
inductive Op where
  | write (data : List Byte)
  | read (n : Nat)
deriving DecidableEq, Repr

/-- Bytes the caller hands to write in one operation. -/
def opWritten : Op → Nat
  | .write d => d.length
  | .read _ => 0

/-- One operation: the new state, and how many bytes read returned during it
(for a write, the windows its transmissions pulled through read; for a read,
the returned string's length). -/
def step (s : Stream) : Op → Stream × Nat
  | .write d =>
    let r := write s d
    (r.2.1, (r.2.2.map List.length).sum)
  | .read n =>
    let r := read s n
    (r.2, r.1.length)

/-- Run a sequence of operations; the Nat is the cumulative count of bytes
ever returned by read during the run. -/
def runOps (s : Stream) : List Op → Stream × Nat
  | [] => (s, 0)
  | op :: ops =>
    let r := step s op
    let rest := runOps r.1 ops
    (rest.1, r.2 + rest.2)

/-- Total bytes the caller wrote across a sequence of operations. -/
def totalWritten (ops : List Op) : Nat := (ops.map opWritten).sum

/-- States the stream can actually be in: reached from __init__ by write and
read calls, with a positive chunk size. -/
def Reachable (s : Stream) : Prop :=
  ∃ ct cs ops, 0 < cs ∧ s = (runOps (init ct cs) ops).1

end Base

namespace MainPy

/-- State of GCSObjectStreamUpload (src/functions/ews-mail-ingest/main.py):
the fields _buffer, _buffer_size, _chunk_size and _read set up in __init__
(lines 226-229).  Unlike the base.py copy, __init__ takes no content_type;
start hardcodes application/octet-stream (line 254). -/
structure Stream where
  buffer : List Byte
  buffer_size : Nat
  chunk_size : Nat
  read_count : Nat
deriving DecidableEq, Repr

/-- read (main.py lines 275-283): identical to the base.py copy. -/
def read (s : Stream) (chunk_size : Nat) : List Byte × Stream :=
  let to_read := min chunk_size s.buffer_size
  (s.buffer.take to_read,
   { s with
      buffer := s.buffer.drop to_read
      read_count := s.read_count + to_read
      buffer_size := s.buffer_size - to_read })

/-- tell (main.py lines 285-286). -/
def tell (s : Stream) : Nat := s.read_count

/-- Modelled from the spec: same library call as Base.transmit_next_chunk. -/
def transmit_next_chunk (s : Stream) : List Byte × Stream :=
  read s s.chunk_size

/-- The while loop of write (main.py lines 268-272), fuel-totalized exactly
as in the Base namespace. -/
def writeLoopFuel : Nat → Stream → Stream × List (List Byte)
  | 0, s => (s, [])
  | fuel + 1, s =>
    if s.chunk_size ≤ s.buffer_size then
      let r := transmit_next_chunk s
      let rest := writeLoopFuel fuel r.2
      (rest.1, r.1 :: rest.2)
    else (s, [])

/-- The while loop of write, entered with fuel = current _buffer_size. -/
def writeLoop (s : Stream) : Stream × List (List Byte) :=
  writeLoopFuel s.buffer_size s

/-- write (main.py lines 263-273): identical to the base.py copy. -/
def write (s : Stream) (data : List Byte) : Nat × Stream × List (List Byte) :=
  let data_len := data.length
  let s1 := { s with
                buffer_size := s.buffer_size + data_len
                buffer := s.buffer ++ data }
  let r := writeLoop s1
  (data_len, r.1, r.2)

end MainPy

/-- The shared surface of the two copies: forget base.py's stored
content_type, keep buffer, sizes and cursor. -/
def toMain (s : Base.Stream) : MainPy.Stream :=
  { buffer := s.buffer
    buffer_size := s.buffer_size
    chunk_size := s.chunk_size
    read_count := s.read_count }

end EwsIngest

namespace EwsIngest

namespace Base

/-- The bookkeeping invariant of the stream: _buffer_size equals the length
of the buffered byte sequence.  It holds in __init__ and is preserved by
every method. -/
def WF (s : Stream) : Prop := s.buffer_size = s.buffer.length

theorem wf_init (ct : String) (cs : Nat) : WF (init ct cs) := rfl

/-- Arithmetic shape of one loop iteration: transmit_next_chunk pulls
min(_chunk_size, _buffer_size) bytes out of the buffer. -/
theorem transmit_snd (s : Stream) :
    (transmit_next_chunk s).2 =
      { s with
          buffer := s.buffer.drop (min s.chunk_size s.buffer_size)
          read_count := s.read_count + min s.chunk_size s.buffer_size
          buffer_size := s.buffer_size - min s.chunk_size s.buffer_size } := rfl

theorem transmit_fst (s : Stream) :
    (transmit_next_chunk s).1 = s.buffer.take (min s.chunk_size s.buffer_size) := rfl

/-- The write loop leaves less than one chunk buffered and keeps the chunk
size, for any state, as long as the chunk size is positive (pure size
arithmetic, no buffer-contents assumption). -/
theorem writeLoopFuel_size (fuel : Nat) :
    ∀ s : Stream, s.buffer_size ≤ fuel → 0 < s.chunk_size →
      (writeLoopFuel fuel s).1.buffer_size < s.chunk_size ∧
      (writeLoopFuel fuel s).1.chunk_size = s.chunk_size := by
  induction fuel with
  | zero =>
    intro s hle hpos
    refine ⟨?_, rfl⟩
    simp only [writeLoopFuel]
    omega
  | succ fuel ih =>
    intro s hle hpos
    by_cases hg : s.chunk_size ≤ s.buffer_size
    · have ht2 :
        (transmit_next_chunk s).2.buffer_size = s.buffer_size - s.chunk_size ∧
        (transmit_next_chunk s).2.chunk_size = s.chunk_size := by
        rw [transmit_snd]
        constructor
        · simp
          omega
        · simp
      have ih2 := ih (transmit_next_chunk s).2 (by omega) (by omega)
      simp only [writeLoopFuel, if_pos hg]
      exact ⟨by omega, by omega⟩
    · refine ⟨?_, ?_⟩ <;> simp only [writeLoopFuel, if_neg hg]
      · omega


/-- Full behaviour of the write loop on the error-free path, assuming the
bookkeeping invariant: it keeps the invariant, preserves chunk size and
content type, leaves _buffer_size = old size mod chunk, fires exactly
size / chunk transmissions of exactly one chunk each, hands the buffered
bytes to the backend in order with the untransmitted tail kept, and keeps
_read + _buffer_size constant. -/
theorem writeLoopFuel_spec (fuel : Nat) :
    ∀ s : Stream, s.buffer_size ≤ fuel → 0 < s.chunk_size → WF s →
      WF (writeLoopFuel fuel s).1 ∧
      (writeLoopFuel fuel s).1.chunk_size = s.chunk_size ∧
      (writeLoopFuel fuel s).1.content_type = s.content_type ∧
      (writeLoopFuel fuel s).1.buffer_size = s.buffer_size % s.chunk_size ∧
      (writeLoopFuel fuel s).2.length = s.buffer_size / s.chunk_size ∧
      (∀ w ∈ (writeLoopFuel fuel s).2, w.length = s.chunk_size) ∧
      (writeLoopFuel fuel s).2.flatten ++ (writeLoopFuel fuel s).1.buffer = s.buffer ∧
      (writeLoopFuel fuel s).1.read_count + (writeLoopFuel fuel s).1.buffer_size
        = s.read_count + s.buffer_size := by
  induction fuel with
  | zero =>
    intro s hle hpos hwf
    have hlt : s.buffer_size < s.chunk_size := by omega
    refine ⟨hwf, rfl, rfl, (Nat.mod_eq_of_lt hlt).symm, ?_, ?_, rfl, rfl⟩
    · show ([] : List (List Byte)).length = s.buffer_size / s.chunk_size
      rw [Nat.div_eq_of_lt hlt]
      rfl
    · intro w hw
      exact absurd hw (List.not_mem_nil w)
  | succ fuel ih =>
    intro s hle hpos hwf
    have hwf1 : s.buffer_size = s.buffer.length := hwf
    by_cases hg : s.chunk_size ≤ s.buffer_size
    · have hmin : min s.chunk_size s.buffer_size = s.chunk_size := Nat.min_eq_left hg
      have ht2 : (transmit_next_chunk s).2 =
          { s with
              buffer := s.buffer.drop s.chunk_size
              read_count := s.read_count + s.chunk_size
              buffer_size := s.buffer_size - s.chunk_size } := by
        rw [transmit_snd, hmin]
      have ht1 : (transmit_next_chunk s).1 = s.buffer.take s.chunk_size := by
        rw [transmit_fst, hmin]
      have hsz2 : (transmit_next_chunk s).2.buffer_size = s.buffer_size - s.chunk_size := by
        rw [ht2]
      have hcs2 : (transmit_next_chunk s).2.chunk_size = s.chunk_size := by rw [ht2]
      have hct2 : (transmit_next_chunk s).2.content_type = s.content_type := by rw [ht2]
      have hrc2 : (transmit_next_chunk s).2.read_count = s.read_count + s.chunk_size := by
        rw [ht2]
      have hbuf2 : (transmit_next_chunk s).2.buffer = s.buffer.drop s.chunk_size := by
        rw [ht2]
      have hwf2 : WF (transmit_next_chunk s).2 := by
        show (transmit_next_chunk s).2.buffer_size = (transmit_next_chunk s).2.buffer.length
        rw [hsz2, hbuf2, List.length_drop]
        omega
      obtain ⟨iwf, ics, ict, isz, ilen, iall, iflat, icons⟩ :=
        ih (transmit_next_chunk s).2 (by omega) (by omega) hwf2
      rw [hsz2, hcs2] at isz
      rw [hsz2, hcs2] at ilen
      rw [hbuf2] at iflat
      rw [hrc2, hsz2] at icons
      have heq : writeLoopFuel (fuel + 1) s =
          ((writeLoopFuel fuel (transmit_next_chunk s).2).1,
           (transmit_next_chunk s).1 :: (writeLoopFuel fuel (transmit_next_chunk s).2).2) := by
        simp only [writeLoopFuel, if_pos hg]
      rw [heq]
      refine ⟨iwf, ?_, ?_, ?_, ?_, ?_, ?_, ?_⟩
      · show (writeLoopFuel fuel (transmit_next_chunk s).2).1.chunk_size = s.chunk_size
        rw [ics, hcs2]
      · show (writeLoopFuel fuel (transmit_next_chunk s).2).1.content_type = s.content_type
        rw [ict, hct2]
      · show (writeLoopFuel fuel (transmit_next_chunk s).2).1.buffer_size
          = s.buffer_size % s.chunk_size
        rw [isz, Nat.mod_eq_sub_mod hg]
      · show ((transmit_next_chunk s).1
            :: (writeLoopFuel fuel (transmit_next_chunk s).2).2).length
          = s.buffer_size / s.chunk_size
        rw [List.length_cons, ilen, Nat.div_eq_sub_div hpos hg]
      · intro w hw
        rcases List.mem_cons.mp hw with h1 | h2
        · subst h1
          rw [ht1, List.length_take]
          omega
        · exact iall w h2
      · show ((transmit_next_chunk s).1
              :: (writeLoopFuel fuel (transmit_next_chunk s).2).2).flatten
            ++ (writeLoopFuel fuel (transmit_next_chunk s).2).1.buffer
          = s.buffer
        rw [List.flatten_cons, List.append_assoc, iflat, ht1, List.take_append_drop]
      · show (writeLoopFuel fuel (transmit_next_chunk s).2).1.read_count
            + (writeLoopFuel fuel (transmit_next_chunk s).2).1.buffer_size
          = s.read_count + s.buffer_size
        rw [icons]
        omega
    · have hlt : s.buffer_size < s.chunk_size := Nat.lt_of_not_le hg
      have heq : writeLoopFuel (fuel + 1) s = (s, []) := by
        simp only [writeLoopFuel, if_neg hg]
      rw [heq]
      refine ⟨hwf, rfl, rfl, (Nat.mod_eq_of_lt hlt).symm, ?_, ?_, rfl, rfl⟩
      · show ([] : List (List Byte)).length = s.buffer_size / s.chunk_size
        rw [Nat.div_eq_of_lt hlt]
        rfl
      · intro w hw
        exact absurd hw (List.not_mem_nil w)


/-- Behaviour of one write call on the error-free path, assuming the
bookkeeping invariant. -/
theorem write_spec (s : Stream) (d : List Byte) (hpos : 0 < s.chunk_size) (hwf : WF s) :
    (write s d).1 = d.length ∧
    WF (write s d).2.1 ∧
    (write s d).2.1.chunk_size = s.chunk_size ∧
    (write s d).2.1.content_type = s.content_type ∧
    (write s d).2.1.buffer_size = (s.buffer_size + d.length) % s.chunk_size ∧
    (write s d).2.2.length = (s.buffer_size + d.length) / s.chunk_size ∧
    (∀ w ∈ (write s d).2.2, w.length = s.chunk_size) ∧
    (write s d).2.2.flatten ++ (write s d).2.1.buffer = s.buffer ++ d ∧
    (write s d).2.1.read_count + (write s d).2.1.buffer_size
      = s.read_count + (s.buffer_size + d.length) := by
  have hwf1 : s.buffer_size = s.buffer.length := hwf
  have hwfs1 : WF { s with
      buffer_size := s.buffer_size + d.length
      buffer := s.buffer ++ d } := by
    show s.buffer_size + d.length = (s.buffer ++ d).length
    rw [List.length_append]
    omega
  have h := writeLoopFuel_spec (s.buffer_size + d.length)
    { s with
        buffer_size := s.buffer_size + d.length
        buffer := s.buffer ++ d }
    (Nat.le_refl _) hpos hwfs1
  exact ⟨rfl, h.1, h.2.1, h.2.2.1, h.2.2.2.1, h.2.2.2.2.1, h.2.2.2.2.2.1,
    h.2.2.2.2.2.2.1, h.2.2.2.2.2.2.2⟩

/-- Behaviour of a sequence of write calls on the error-free path. -/
theorem runWrites_spec (ds : List (List Byte)) :
    ∀ s : Stream, 0 < s.chunk_size → WF s →
      WF (runWrites s ds).1 ∧
      (runWrites s ds).1.chunk_size = s.chunk_size ∧
      (runWrites s ds).2.flatten ++ (runWrites s ds).1.buffer = s.buffer ++ ds.flatten ∧
      (s.buffer_size < s.chunk_size → (runWrites s ds).1.buffer_size < s.chunk_size) := by
  induction ds with
  | nil =>
    intro s hpos hwf
    refine ⟨hwf, rfl, ?_, fun h => h⟩
    show ([] : List (List Byte)).flatten ++ s.buffer = s.buffer ++ ([] : List (List Byte)).flatten
    simp
  | cons d ds ih =>
    intro s hpos hwf
    obtain ⟨-, wwf, wcs, -, wsz, -, -, wflat, -⟩ := write_spec s d hpos hwf
    have hlt : (write s d).2.1.buffer_size < s.chunk_size := by
      rw [wsz]
      exact Nat.mod_lt _ hpos
    obtain ⟨rwf, rcs, rflat, rlt⟩ := ih (write s d).2.1 (by omega) wwf
    have heq : runWrites s (d :: ds) =
        ((runWrites (write s d).2.1 ds).1,
         (write s d).2.2 ++ (runWrites (write s d).2.1 ds).2) := by
      simp only [runWrites]
    rw [heq]
    refine ⟨rwf, ?_, ?_, ?_⟩
    · show (runWrites (write s d).2.1 ds).1.chunk_size = s.chunk_size
      rw [rcs, wcs]
    · show ((write s d).2.2 ++ (runWrites (write s d).2.1 ds).2).flatten
          ++ (runWrites (write s d).2.1 ds).1.buffer
        = s.buffer ++ (d :: ds).flatten
      rw [List.flatten_append, List.append_assoc, rflat, ← List.append_assoc, wflat,
        List.flatten_cons, List.append_assoc]
    · intro _
      show (runWrites (write s d).2.1 ds).1.buffer_size < s.chunk_size
      rw [← wcs]
      exact rlt (by omega)

/-- C1: for any sequence of writes followed by normal release, the
concatenation of all byte windows handed to the backend (the transmissions
fired inside the writes and the final flushing transmission of stop) is
exactly the concatenation of the written data, for every positive chunk
size. -/
theorem write_stop_byte_exact (ct : String) (cs : Nat) (ds : List (List Byte))
    (h : 0 < cs) :
    (session ct cs ds).flatten = ds.flatten := by
  obtain ⟨rwf, rcs, rflat, rlt⟩ := runWrites_spec ds (init ct cs) h (wf_init ct cs)
  have hlt : (runWrites (init ct cs) ds).1.buffer_size < cs := rlt h
  set t := (runWrites (init ct cs) ds).1 with hts
  have htwf : t.buffer_size = t.buffer.length := rwf
  have hcs : t.chunk_size = cs := rcs
  have hmin : min t.chunk_size t.buffer_size = t.buffer_size := by
    rw [hcs]
    omega
  have hstop : (stop t).1 = t.buffer := by
    rw [stop, transmit_fst, hmin, htwf, List.take_length]
  show ((runWrites (init ct cs) ds).2 ++ [(stop t).1]).flatten = ds.flatten
  rw [List.flatten_append, hstop, List.flatten_cons, List.flatten_nil, List.append_nil,
    rflat]
  rfl

/-- C1 witness: three writes of sizes 2, 3, 1 with chunk size 3 are handed
to the backend byte-exactly. -/
theorem write_stop_byte_exact_witness :
    0 < 3 ∧ (session "a" 3 [[1, 2], [3, 4, 5], [6]]).flatten = [[1, 2], [3, 4, 5], [6]].flatten :=
  ⟨by decide, write_stop_byte_exact "a" 3 [[1, 2], [3, 4, 5], [6]] (by decide)⟩


/-- C6: whenever write returns, strictly less than one chunk is left
buffered (the while condition _buffer_size >= _chunk_size has just become
false), for every state and every positive chunk size; the in-memory
backlog between writes therefore never reaches one chunk. -/
theorem write_backpressure (s : Stream) (d : List Byte) (h : 0 < s.chunk_size) :
    (write s d).2.1.buffer_size < s.chunk_size := by
  have h2 := writeLoopFuel_size
    ({ s with
        buffer_size := s.buffer_size + d.length
        buffer := s.buffer ++ d }).buffer_size
    { s with
        buffer_size := s.buffer_size + d.length
        buffer := s.buffer ++ d }
    (Nat.le_refl _) h
  exact h2.1

/-- C5 (Scenario A): with chunk size 262144 and an empty buffer, a single
write of 300000 bytes fires exactly one transmission of exactly 262144
bytes and returns with 37856 bytes buffered. -/
theorem write_scenarioA (ct : String) (data : List Byte) (h : data.length = 300000) :
    (write (init ct 262144) data).2.2.map List.length = [262144] ∧
    (write (init ct 262144) data).2.1.buffer_size = 37856 := by
  obtain ⟨-, -, -, -, wsz, wlen, wall, -, -⟩ :=
    write_spec (init ct 262144) data
      (by show (0 : Nat) < 262144; norm_num) (wf_init ct 262144)
  have hsz0 : (init ct 262144).buffer_size = 0 := rfl
  have hcs0 : (init ct 262144).chunk_size = 262144 := rfl
  rw [h, hsz0, hcs0] at wsz wlen
  norm_num at wsz wlen
  obtain ⟨w, hw⟩ := List.length_eq_one.mp wlen
  have hwlen : w.length = 262144 := by
    rw [← hcs0]
    exact wall w (by rw [hw]; exact List.mem_singleton_self w)
  exact ⟨by rw [hw, List.map_cons, List.map_nil, hwlen], wsz⟩


/-- C6 witness: a 5-byte write against chunk size 4 returns with 1 byte
buffered, less than the chunk size. -/
theorem write_backpressure_witness :
    0 < (init "t" 4).chunk_size ∧
    (write (init "t" 4) [9, 9, 9, 9, 9]).2.1.buffer_size < (init "t" 4).chunk_size :=
  ⟨by decide, write_backpressure (init "t" 4) [9, 9, 9, 9, 9] (by decide)⟩

/-- C5 witness: the scenario evaluated on 300000 zero bytes. -/
theorem write_scenarioA_witness :
    (List.replicate 300000 (0 : Byte)).length = 300000 ∧
    ((write (init "t" 262144) (List.replicate 300000 (0 : Byte))).2.2.map List.length
        = [262144] ∧
     (write (init "t" 262144) (List.replicate 300000 (0 : Byte))).2.1.buffer_size = 37856) :=
  ⟨List.length_replicate 300000 0,
   write_scenarioA "t" (List.replicate 300000 (0 : Byte)) (List.length_replicate 300000 0)⟩


/-- Behaviour of one read call under the bookkeeping invariant: the returned
string is exactly min(n, _buffer_size) bytes taken off the head, order
preserved, sizes accounted exactly. -/
theorem read_spec (s : Stream) (n : Nat) (hwf : WF s) :
    (read s n).1.length = min n s.buffer_size ∧
    (read s n).1 ++ (read s n).2.buffer = s.buffer ∧
    (read s n).2.buffer_size + min n s.buffer_size = s.buffer_size ∧
    WF (read s n).2 ∧
    (read s n).2.chunk_size = s.chunk_size ∧
    (read s n).2.content_type = s.content_type ∧
    (read s n).2.read_count = s.read_count + min n s.buffer_size := by
  have hwf1 : s.buffer_size = s.buffer.length := hwf
  refine ⟨?_, ?_, ?_, ?_, rfl, rfl, rfl⟩
  · show (s.buffer.take (min n s.buffer_size)).length = min n s.buffer_size
    rw [List.length_take]
    omega
  · show s.buffer.take (min n s.buffer_size) ++ s.buffer.drop (min n s.buffer_size)
      = s.buffer
    exact List.take_append_drop _ _
  · show s.buffer_size - min n s.buffer_size + min n s.buffer_size = s.buffer_size
    omega
  · show s.buffer_size - min n s.buffer_size
      = (s.buffer.drop (min n s.buffer_size)).length
    rw [List.length_drop]
    omega

/-- totalWritten unfolded over a cons. -/
theorem totalWritten_cons (op : Op) (ops : List Op) :
    totalWritten (op :: ops) = opWritten op + totalWritten ops := by
  simp [totalWritten]

/-- Behaviour of a single operation under the bookkeeping invariant:
invariant and chunk size preserved, _read advances by exactly the bytes read
returned during the operation, and _read + _buffer_size grows by exactly the
bytes the caller wrote. -/
theorem step_spec (s : Stream) (op : Op) (hpos : 0 < s.chunk_size) (hwf : WF s) :
    WF (step s op).1 ∧
    (step s op).1.chunk_size = s.chunk_size ∧
    (step s op).1.read_count = s.read_count + (step s op).2 ∧
    (step s op).1.read_count + (step s op).1.buffer_size
      = s.read_count + s.buffer_size + opWritten op := by
  cases op with
  | write d =>
    obtain ⟨-, wwf, wcs, -, -, -, -, wflat, wcons⟩ := write_spec s d hpos hwf
    have hlen := congrArg List.length wflat
    rw [List.length_append, List.length_append, List.length_flatten] at hlen
    have hwf1 : s.buffer_size = s.buffer.length := hwf
    have hwf2 : (write s d).2.1.buffer_size = (write s d).2.1.buffer.length := wwf
    refine ⟨wwf, wcs, ?_, ?_⟩
    · show (write s d).2.1.read_count
        = s.read_count + ((write s d).2.2.map List.length).sum
      omega
    · show (write s d).2.1.read_count + (write s d).2.1.buffer_size
        = s.read_count + s.buffer_size + d.length
      omega
  | read n =>
    obtain ⟨rlen, -, rsz, rwf, rcs, -, rrc⟩ := read_spec s n hwf
    refine ⟨rwf, rcs, ?_, ?_⟩
    · show (read s n).2.read_count = s.read_count + (read s n).1.length
      omega
    · show (read s n).2.read_count + (read s n).2.buffer_size
        = s.read_count + s.buffer_size + 0
      omega

/-- Behaviour of a whole operation sequence under the bookkeeping invariant. -/
theorem runOps_spec (ops : List Op) :
    ∀ s : Stream, 0 < s.chunk_size → WF s →
      WF (runOps s ops).1 ∧
      (runOps s ops).1.chunk_size = s.chunk_size ∧
      (runOps s ops).1.read_count = s.read_count + (runOps s ops).2 ∧
      (runOps s ops).1.read_count + (runOps s ops).1.buffer_size
        = s.read_count + s.buffer_size + totalWritten ops := by
  induction ops with
  | nil =>
    intro s hpos hwf
    refine ⟨hwf, rfl, rfl, ?_⟩
    show s.read_count + s.buffer_size = s.read_count + s.buffer_size + totalWritten []
    rfl
  | cons op ops ih =>
    intro s hpos hwf
    obtain ⟨swf, scs, src1, scons⟩ := step_spec s op hpos hwf
    obtain ⟨rwf, rcs, rrc, rcons⟩ := ih (step s op).1 (by omega) swf
    have htw := totalWritten_cons op ops
    refine ⟨rwf, ?_, ?_, ?_⟩
    · show (runOps (step s op).1 ops).1.chunk_size = s.chunk_size
      omega
    · show (runOps (step s op).1 ops).1.read_count
        = s.read_count + ((step s op).2 + (runOps (step s op).1 ops).2)
      omega
    · show (runOps (step s op).1 ops).1.read_count
          + (runOps (step s op).1 ops).1.buffer_size
        = s.read_count + s.buffer_size + totalWritten (op :: ops)
      omega

/-- Running an appended operation sequence continues from the first run's
final state. -/
theorem runOps_append_fst (a b : List Op) :
    ∀ s : Stream, (runOps s (a ++ b)).1 = (runOps (runOps s a).1 b).1 := by
  induction a with
  | nil => intro s; rfl
  | cons op a ih =>
    intro s
    show (runOps (step s op).1 (a ++ b)).1 = _
    rw [ih (step s op).1]
    rfl


/-- C7: across any sequence of write/read operations from __init__, tell()
returns exactly the cumulative count of bytes ever returned by read, is
non-decreasing along the run, and never exceeds the total bytes the caller
wrote. -/
theorem tell_read_cursor (ct : String) (cs : Nat) (ops more : List Op) (h : 0 < cs) :
    tell (runOps (init ct cs) ops).1 = (runOps (init ct cs) ops).2 ∧
    tell (runOps (init ct cs) ops).1 ≤ tell (runOps (init ct cs) (ops ++ more)).1 ∧
    tell (runOps (init ct cs) ops).1 ≤ totalWritten ops := by
  have h0 : (init ct cs).read_count = 0 := rfl
  have h1 : (init ct cs).buffer_size = 0 := rfl
  have h2 : (init ct cs).chunk_size = cs := rfl
  obtain ⟨owf, ocs, orc, ocons⟩ := runOps_spec ops (init ct cs) (by omega) (wf_init ct cs)
  obtain ⟨-, -, mrc, -⟩ :=
    runOps_spec more (runOps (init ct cs) ops).1 (by omega) owf
  refine ⟨?_, ?_, ?_⟩
  · show (runOps (init ct cs) ops).1.read_count = (runOps (init ct cs) ops).2
    omega
  · show (runOps (init ct cs) ops).1.read_count
      ≤ (runOps (init ct cs) (ops ++ more)).1.read_count
    rw [runOps_append_fst]
    omega
  · show (runOps (init ct cs) ops).1.read_count ≤ totalWritten ops
    omega

/-- C7 witness: a 5-byte write with chunk size 4, then a 2-byte read; tell
is the cumulative read count, monotone under one more read, and bounded by
the 5 written bytes. -/
theorem tell_read_cursor_witness :
    0 < 4 ∧
    (tell (runOps (init "t" 4) [Op.write [1, 2, 3, 4, 5], Op.read 2]).1
        = (runOps (init "t" 4) [Op.write [1, 2, 3, 4, 5], Op.read 2]).2 ∧
     tell (runOps (init "t" 4) [Op.write [1, 2, 3, 4, 5], Op.read 2]).1
        ≤ tell (runOps (init "t" 4)
            ([Op.write [1, 2, 3, 4, 5], Op.read 2] ++ [Op.read 9])).1 ∧
     tell (runOps (init "t" 4) [Op.write [1, 2, 3, 4, 5], Op.read 2]).1
        ≤ totalWritten [Op.write [1, 2, 3, 4, 5], Op.read 2]) :=
  ⟨by decide,
   tell_read_cursor "t" 4 [Op.write [1, 2, 3, 4, 5], Op.read 2] [Op.read 9] (by decide)⟩

/-- C10: conservation of bytes - after any sequence of write and read
operations from __init__, tell() plus the buffered size equals the total
bytes passed to write; every byte is either already read or still pending. -/
theorem byte_conservation (ct : String) (cs : Nat) (ops : List Op) (h : 0 < cs) :
    tell (runOps (init ct cs) ops).1 + (runOps (init ct cs) ops).1.buffer_size
      = totalWritten ops := by
  have h0 : (init ct cs).read_count = 0 := rfl
  have h1 : (init ct cs).buffer_size = 0 := rfl
  have h2 : (init ct cs).chunk_size = cs := rfl
  obtain ⟨-, -, -, ocons⟩ := runOps_spec ops (init ct cs) (by omega) (wf_init ct cs)
  show (runOps (init ct cs) ops).1.read_count + (runOps (init ct cs) ops).1.buffer_size
    = totalWritten ops
  omega

/-- C10 witness: conservation evaluated after a 5-byte write and a 2-byte
read with chunk size 4. -/
theorem byte_conservation_witness :
    0 < 4 ∧
    tell (runOps (init "t" 4) [Op.write [1, 2, 3, 4, 5], Op.read 2]).1
        + (runOps (init "t" 4) [Op.write [1, 2, 3, 4, 5], Op.read 2]).1.buffer_size
      = totalWritten [Op.write [1, 2, 3, 4, 5], Op.read 2] :=
  ⟨by decide, byte_conservation "t" 4 [Op.write [1, 2, 3, 4, 5], Op.read 2] (by decide)⟩

/-- C4: in every reachable state, read(n) returns exactly
min(n, size_before) bytes, removed from the head with order preserved, and
the size bookkeeping stays exact (in particular it never underflows: the
new size plus the bytes removed is exactly the old size, and it still
equals the length of the pending sequence). -/
theorem read_pop_bounds (s : Stream) (h : Reachable s) (n : Nat) :
    (read s n).1.length = min n s.buffer_size ∧
    (read s n).1 ++ (read s n).2.buffer = s.buffer ∧
    (read s n).2.buffer_size + min n s.buffer_size = s.buffer_size ∧
    (read s n).2.buffer_size = (read s n).2.buffer.length := by
  obtain ⟨ct, cs, ops, hcs, hs⟩ := h
  have h2 : (init ct cs).chunk_size = cs := rfl
  have hwf : WF s := by
    rw [hs]
    exact (runOps_spec ops (init ct cs) (by omega) (wf_init ct cs)).1
  obtain ⟨rlen, rapp, rsz, rwf, -, -, -⟩ := read_spec s n hwf
  exact ⟨rlen, rapp, rsz, rwf⟩

/-- A concrete reachable state: one 3-byte write against chunk size 4. -/
def sampleState : Stream :=
  { content_type := "t", buffer := [7, 8, 9], buffer_size := 3, chunk_size := 4
    read_count := 0 }

/-- C4 witness: the bounds evaluated at a concrete reachable state with a
read of 2 bytes. -/
theorem read_pop_bounds_witness :
    Reachable sampleState ∧
    ((read sampleState 2).1.length = min 2 sampleState.buffer_size ∧
     (read sampleState 2).1 ++ (read sampleState 2).2.buffer = sampleState.buffer ∧
     (read sampleState 2).2.buffer_size + min 2 sampleState.buffer_size
        = sampleState.buffer_size ∧
     (read sampleState 2).2.buffer_size = (read sampleState 2).2.buffer.length) :=
  ⟨⟨"t", 4, [Op.write [7, 8, 9]], by decide, by decide⟩,
   read_pop_bounds sampleState ⟨"t", 4, [Op.write [7, 8, 9]], by decide, by decide⟩ 2⟩


/-- C2 (code evaluated at the failing input): a session with chunk size 4
and a single 5-byte write, released normally, performs two transmissions
(one full chunk inside write, the flushing remainder in stop) and marks
none of them final - not exactly one, as the claim requires: stream_final
is passed False at initiate and never raised. -/
theorem no_final_transmission :
    (sessionTransmissions "application/octet-stream" 4 [[1, 2, 3, 4, 5]]).length = 2 ∧
    (sessionTransmissions "application/octet-stream" 4 [[1, 2, 3, 4, 5]]).countP
        (fun t => t.final) = 0 := by
  decide

/-- C3 (code evaluated at the failing input): against a backend that
answers every transmission attempt with InvalidResponse, the
transmit/recover loop of write never exits - for every iteration budget it
is still running (no retry bound, no FAILED transition exists in the
code). -/
theorem unbounded_retry (s : Stream) (h : s.chunk_size ≤ s.buffer_size)
    (k fuel : Nat) :
    writeLoopRec alwaysFail k fuel s = none := by
  induction fuel generalizing k with
  | zero => simp only [writeLoopRec, if_pos h]
  | succ fuel ih =>
    simp only [writeLoopRec, if_pos h, alwaysFail, if_true]
    exact ih (k + 1)

/-- A full buffer against an always-failing backend: one chunk is pending,
so the while condition holds. -/
def stuckState : Stream :=
  { content_type := "t", buffer := [0, 0, 0, 0], buffer_size := 4, chunk_size := 4
    read_count := 0 }

/-- C3 witness: with 4 bytes pending and chunk size 4, the loop is still
running after 7 iterations of failed transmit plus recover. -/
theorem unbounded_retry_witness :
    stuckState.chunk_size ≤ stuckState.buffer_size ∧
    writeLoopRec alwaysFail 0 7 stuckState = none :=
  ⟨by decide, unbounded_retry stuckState (by decide) 0 7⟩

/-- C8: on an abnormal scope exit (an exception is unwinding, exc_type is
not None), the release path transmits nothing at all - in particular no
transmission marked final - so the backend object stays uncommitted. -/
theorem abnormal_exit_no_finalize (s : Stream) :
    exitScope (some ()) s = (s, []) ∧
    (exitScope (some ()) s).2.countP (fun t => t.final) = 0 :=
  ⟨rfl, rfl⟩

end Base

/-- The two loop totalizations agree along toMain. -/
theorem toMain_loop (fuel : Nat) :
    ∀ s : Base.Stream,
      MainPy.writeLoopFuel fuel (toMain s)
        = (toMain (Base.writeLoopFuel fuel s).1, (Base.writeLoopFuel fuel s).2) := by
  induction fuel with
  | zero => intro s; rfl
  | succ fuel ih =>
    intro s
    by_cases hg : s.chunk_size ≤ s.buffer_size
    · have hgm : (toMain s).chunk_size ≤ (toMain s).buffer_size := hg
      simp only [MainPy.writeLoopFuel, Base.writeLoopFuel, if_pos hg, if_pos hgm]
      rw [show (MainPy.transmit_next_chunk (toMain s)).2
            = toMain (Base.transmit_next_chunk s).2 from rfl]
      rw [ih (Base.transmit_next_chunk s).2]
      rfl
    · have hgm : ¬ (toMain s).chunk_size ≤ (toMain s).buffer_size := hg
      simp only [MainPy.writeLoopFuel, Base.writeLoopFuel, if_neg hg, if_neg hgm]

/-- The two write implementations agree along toMain. -/
theorem toMain_write (s : Base.Stream) (d : List Byte) :
    MainPy.write (toMain s) d
      = ((Base.write s d).1, toMain (Base.write s d).2.1, (Base.write s d).2.2) := by
  show (d.length,
      (MainPy.writeLoopFuel (s.buffer_size + d.length)
        (toMain { s with
            buffer_size := s.buffer_size + d.length
            buffer := s.buffer ++ d })).1,
      (MainPy.writeLoopFuel (s.buffer_size + d.length)
        (toMain { s with
            buffer_size := s.buffer_size + d.length
            buffer := s.buffer ++ d })).2)
    = ((Base.write s d).1, toMain (Base.write s d).2.1, (Base.write s d).2.2)
  rw [toMain_loop]
  rfl

/-- C9: the two duplicated GCSObjectStreamUpload implementations are
behaviourally equivalent on their shared surface: along the field
correspondence toMain (which forgets only base.py's stored content type),
write returns the same count, final state and transmitted windows, read
returns the same bytes and state, and tell returns the same cursor. -/
theorem duplicate_impl_equiv (s : Base.Stream) (d : List Byte) (n : Nat) :
    (Base.write s d).1 = (MainPy.write (toMain s) d).1 ∧
    toMain (Base.write s d).2.1 = (MainPy.write (toMain s) d).2.1 ∧
    (Base.write s d).2.2 = (MainPy.write (toMain s) d).2.2 ∧
    (Base.read s n).1 = (MainPy.read (toMain s) n).1 ∧
    toMain (Base.read s n).2 = (MainPy.read (toMain s) n).2 ∧
    Base.tell s = MainPy.tell (toMain s) := by
  refine ⟨?_, ?_, ?_, rfl, rfl, rfl⟩
  · rw [toMain_write]
  · rw [toMain_write]
  · rw [toMain_write]

end EwsIngest
